import Mathlib

/-!
Verification of the RandomFusion procedural seed-to-image engine
(`src/randomfusion/visuals/procedural.py`).

The Python source is shallowly embedded: strings become `List Char`,
Python `int` becomes `Nat`/`Int` (with explicit `% 2^w` where the source
relies on fixed-width arithmetic, i.e. inside SHA-256), Python floats
become `ℚ` (exact rational arithmetic standing in for IEEE doubles),
`ValueError` becomes `Except.error`, and the PIL raster becomes a pixel
function `Nat → Nat → Color` built by folding the sequence of draw calls.
`hashlib.sha256(...).hexdigest()` is embedded as a full executable
SHA-256 over byte lists.
-/

/-! ## SHA-256 (embedding of `hashlib.sha256(...).hexdigest()`) -/

def add32 (a b : Nat) : Nat := (a + b) % 4294967296

def rotr32 (x n : Nat) : Nat := ((x >>> n) ||| (x <<< (32 - n))) % 4294967296

structure Hash8 where
  a : Nat
  b : Nat
  c : Nat
  d : Nat
  e : Nat
  f : Nat
  g : Nat
  h : Nat

def sha256H0 : Hash8 :=
  ⟨1779033703, 3144134277, 1013904242, 2773480762,
   1359893119, 2600822924, 528734635, 1541459225⟩

def sha256K : List Nat :=
  [1116352408, 1899447441, 3049323471, 3921009573,
   961987163, 1508970993, 2453635748, 2870763221,
   3624381080, 310598401, 607225278, 1426881987,
   1925078388, 2162078206, 2614888103, 3248222580,
   3835390401, 4022224774, 264347078, 604807628,
   770255983, 1249150122, 1555081692, 1996064986,
   2554220882, 2821834349, 2952996808, 3210313671,
   3336571891, 3584528711, 113926993, 338241895,
   666307205, 773529912, 1294757372, 1396182291,
   1695183700, 1986661051, 2177026350, 2456956037,
   2730485921, 2820302411, 3259730800, 3345764771,
   3516065817, 3600352804, 4094571909, 275423344,
   430227734, 506948616, 659060556, 883997877,
   958139571, 1322822218, 1537002063, 1747873779,
   1955562222, 2024104815, 2227730452, 2361852424,
   2428436474, 2756734187, 3204031479, 3329325298]

def sha256Round (st : Hash8) (kw : Nat × Nat) : Hash8 :=
  let s1 := (rotr32 st.e 6) ^^^ (rotr32 st.e 11) ^^^ (rotr32 st.e 25)
  let ch := (st.e &&& st.f) ^^^ ((st.e ^^^ 4294967295) &&& st.g)
  let t1 := (st.h + s1 + ch + kw.1 + kw.2) % 4294967296
  let s0 := (rotr32 st.a 2) ^^^ (rotr32 st.a 13) ^^^ (rotr32 st.a 22)
  let mj := (st.a &&& st.b) ^^^ (st.a &&& st.c) ^^^ (st.b &&& st.c)
  let t2 := (s0 + mj) % 4294967296
  ⟨(t1 + t2) % 4294967296, st.a, st.b, st.c, (st.d + t1) % 4294967296, st.e, st.f, st.g⟩

/-- Big-endian packing of bytes into 32-bit words. -/
def bytesToWords : List Nat → List Nat
  | b0 :: b1 :: b2 :: b3 :: rest =>
      (b0 * 16777216 + b1 * 65536 + b2 * 256 + b3) :: bytesToWords rest
  | _ => []

/-- Message-schedule extension; `rev` holds the words produced so far,
most recent first. -/
def extendW : Nat → List Nat → List Nat
  | 0, rev => rev
  | n + 1, rev =>
    let w15 := rev.getD 14 0
    let w2 := rev.getD 1 0
    let s0 := (rotr32 w15 7) ^^^ (rotr32 w15 18) ^^^ (w15 >>> 3)
    let s1 := (rotr32 w2 17) ^^^ (rotr32 w2 19) ^^^ (w2 >>> 10)
    extendW n (((rev.getD 15 0 + s0 + rev.getD 6 0 + s1) % 4294967296) :: rev)

def sha256Block (st : Hash8) (block : List Nat) : Hash8 :=
  let w := (extendW 48 (bytesToWords block).reverse).reverse
  let r := (sha256K.zip w).foldl sha256Round st
  ⟨add32 st.a r.a, add32 st.b r.b, add32 st.c r.c, add32 st.d r.d,
   add32 st.e r.e, add32 st.f r.f, add32 st.g r.g, add32 st.h r.h⟩

/-- SHA-256 padding: a `0x80` byte, zeros to 56 mod 64, then the bit
length as a 64-bit big-endian integer. -/
def sha256Pad (msg : List Nat) : List Nat :=
  let len := msg.length
  let zeros := (119 - len % 64) % 64
  let bitLen := (8 * len) % 18446744073709551616
  msg ++ [128] ++ List.replicate zeros 0 ++
    [bitLen / 72057594037927936 % 256, bitLen / 281474976710656 % 256,
     bitLen / 1099511627776 % 256, bitLen / 4294967296 % 256,
     bitLen / 16777216 % 256, bitLen / 65536 % 256,
     bitLen / 256 % 256, bitLen % 256]

/-- Split into 64-byte blocks.  Structural recursion on a fuel argument
(the list length bounds the number of blocks) so the kernel can evaluate it. -/
def chunks64Go : Nat → List Nat → List (List Nat)
  | 0, _ => []
  | fuel + 1, l => if l = [] then [] else l.take 64 :: chunks64Go fuel (l.drop 64)

def chunks64 (l : List Nat) : List (List Nat) := chunks64Go l.length l

def sha256Words (msg : List Nat) : List Nat :=
  let st := (chunks64 (sha256Pad msg)).foldl sha256Block sha256H0
  [st.a, st.b, st.c, st.d, st.e, st.f, st.g, st.h]

def hexDigit : Nat → Char
  | 0 => '0'
  | 1 => '1'
  | 2 => '2'
  | 3 => '3'
  | 4 => '4'
  | 5 => '5'
  | 6 => '6'
  | 7 => '7'
  | 8 => '8'
  | 9 => '9'
  | 10 => 'a'
  | 11 => 'b'
  | 12 => 'c'
  | 13 => 'd'
  | 14 => 'e'
  | _ => 'f'

def wordHex (w : Nat) : List Char :=
  [hexDigit (w / 268435456 % 16), hexDigit (w / 16777216 % 16),
   hexDigit (w / 1048576 % 16), hexDigit (w / 65536 % 16),
   hexDigit (w / 4096 % 16), hexDigit (w / 256 % 16),
   hexDigit (w / 16 % 16), hexDigit (w % 16)]

def hexOfWords : List Nat → List Char
  | [] => []
  | w :: ws => wordHex w ++ hexOfWords ws

/-- UTF-8 encoding of one character (Python `str.encode()`). -/
def utf8Bytes (c : Char) : List Nat :=
  let n := c.toNat
  if n < 128 then [n]
  else if n < 2048 then [192 + n / 64, 128 + n % 64]
  else if n < 65536 then [224 + n / 4096, 128 + n / 64 % 64, 128 + n % 64]
  else [240 + n / 262144, 128 + n / 4096 % 64, 128 + n / 64 % 64, 128 + n % 64]

def utf8Encode : List Char → List Nat
  | [] => []
  | c :: cs => utf8Bytes c ++ utf8Encode cs

/-- `hashlib.sha256(s.encode()).hexdigest()` as a list of hex characters. -/
def sha256hex (s : List Char) : List Char := hexOfWords (sha256Words (utf8Encode s))

theorem sha256hex_length (s : List Char) : (sha256hex s).length = 64 := by
  simp [sha256hex, sha256Words, hexOfWords, wordHex]

/-! ## Hex parsing and colors -/

/-- An RGB triplet. -/
abbrev Color : Type := Nat × Nat × Nat

/-- The value of one hex digit, by code point (`0-9`, `a-f`, `A-F`). -/
def hexVal? (c : Char) : Option Nat :=
  if 48 ≤ c.toNat ∧ c.toNat ≤ 57 then some (c.toNat - 48)
  else if 97 ≤ c.toNat ∧ c.toNat ≤ 102 then some (c.toNat - 87)
  else if 65 ≤ c.toNat ∧ c.toNat ≤ 70 then some (c.toNat - 55)
  else none

def isHexChar (c : Char) : Bool := (hexVal? c).isSome

def parseHexCore : List Char → Nat → Option Nat
  | [], acc => some acc
  | c :: cs, acc =>
    match hexVal? c with
    | some v => parseHexCore cs (16 * acc + v)
    | none => none

/-- Python `int(s, 16)` on a plain chunk of characters: `none` models the
`ValueError` branch.  (Python's `int` additionally tolerates surrounding
whitespace, a sign and inner underscores; the chunks handled here are
plain characters, for which the two agree.) -/
def parseHex? (l : List Char) : Option Nat :=
  if l = [] then none else parseHexCore l 0

/-- Python `str.lstrip('#')`: removes every leading `'#'`. -/
def lstripHash : List Char → List Char
  | '#' :: rest => lstripHash rest
  | l => l

/-- `tuple(int(h[i:i+2], 16) for i in (0, 2, 4))`; `none` models the
`ValueError` raised when some pair fails to parse. -/
def rgbOfHex6 (l : List Char) : Option Color :=
  match parseHex? (l.take 2), parseHex? ((l.drop 2).take 2), parseHex? ((l.drop 4).take 2) with
  | some r, some g, some b => some (r, g, b)
  | _, _, _ => none

/-- Decode the first 6 characters of the digest of `l` as three bytes.
The digest characters are always valid hex, so the default is unreachable. -/
def rgbOfDigest (l : List Char) : Color :=
  (rgbOfHex6 ((sha256hex l).take 6)).getD (0, 0, 0)

/-- Embedding of `hex_to_rgb` (procedural.py lines 5-16). -/
def hex_to_rgb (s : List Char) : Color :=
  let t := lstripHash s
  if t.length ≠ 6 then rgbOfDigest t
  else
    match rgbOfHex6 t with
    | some c => c
    | none => rgbOfDigest ("default_color_fallback".toList)

/-! ## Python numeric helpers -/

/-- Python 3 `round` on an exact value: round half to even. -/
def pyRound (q : ℚ) : ℤ :=
  if q - ⌊q⌋ = 1 / 2 then (if 2 ∣ ⌊q⌋ then ⌊q⌋ else ⌊q⌋ + 1) else round q

/-- Python `int()` on a real value: truncation toward zero
(T-division of the rational's numerator by its denominator). -/
def pyInt (q : ℚ) : ℤ := Int.tdiv q.num (q.den : ℤ)

/-- On nonnegative values truncation coincides with the floor. -/
theorem pyInt_eq_floor {q : ℚ} (h : 0 ≤ q) : pyInt q = ⌊q⌋ := by
  rw [Rat.floor_def]
  unfold pyInt
  exact Int.tdiv_eq_ediv (Rat.num_nonneg.mpr h) (Int.ofNat_nonneg _)

/-- Embedding of `_map_hex_to_range` (procedural.py lines 195-214).
Python floats are modelled by exact rationals; the `is_int` branch
applies `int(round(...))`, cast back into `ℚ`. -/
def _map_hex_to_range (hex_chunk : List Char) (min_val max_val : ℚ) (is_int : Bool) : ℚ :=
  let rm : Nat × Int :=
    if hex_chunk = [] then (0, 1)
    else
      let raw := (parseHex? hex_chunk).getD 0
      let mr : Int := 16 ^ hex_chunk.length - 1
      (raw, if mr ≤ 0 then 1 else mr)
  let normalized : ℚ := if 0 < rm.2 then (rm.1 : ℚ) / (rm.2 : ℚ) else 0
  let result := min_val + normalized * (max_val - min_val)
  if is_int then ((pyRound result : ℤ) : ℚ) else result

/-! ## Seed-stream chunk extraction -/

/-- Loop body of `get_seed_chunk` (procedural.py lines 101-111): one
character per iteration, the cursor advancing by one each time when
`advance` is set. -/
def get_seed_chunk_loop (seed : List Char) : Nat → Nat → Bool → List Char × Nat
  | 0, pos, _ => ([], pos)
  | n + 1, pos, adv =>
    let c := seed.getD (pos % seed.length) '0'
    let pos1 := if adv then pos + 1 else pos
    let r := get_seed_chunk_loop seed n pos1 adv
    (c :: r.1, r.2)

/-- Embedding of the circle generator's `get_seed_chunk`: returns the
chunk and the updated cursor.  The `seed_len == 0` guard returns zeros
without touching the cursor, as in the source. -/
def get_seed_chunk (seed : List Char) (len pos : Nat) (advance : Bool) : List Char × Nat :=
  if seed.length = 0 then (List.replicate len '0', pos)
  else get_seed_chunk_loop seed len pos advance

/-- Loop body of the noise generator's `get_chunk` (procedural.py lines
227-240): reads through a temporary position. -/
def get_chunk_loop (seed : List Char) : Nat → Nat → List Char
  | 0, _ => []
  | n + 1, temp => seed.getD (temp % seed.length) '0' :: get_chunk_loop seed n (temp + 1)

/-- Embedding of `get_chunk`: reads via a temporary position, then
advances the cursor by the requested length. -/
def get_chunk (seed : List Char) (len pos : Nat) : List Char × Nat :=
  if seed.length = 0 then (List.replicate len '0', pos)
  else (get_chunk_loop seed len pos, pos + len)

/-- The specification's description of chunk extraction (§4.1): the j-th
character is `seed[(pos + j) % len(seed)]` for `j < n`. -/
def chunkSpec (seed : List Char) (pos n : Nat) : List Char :=
  (List.range n).map (fun j => seed.getD ((pos + j) % seed.length) '0')

/-! ## Color-block generator (procedural.py lines 18-81) -/

/-- Loop body of the seed-extension `while` (lines 49-51): append the hex
digest of the current string. -/
def extendOnce (s : List Char) : List Char := s ++ sha256hex s

/-- The extension loop, structurally recursive on a fuel argument so the
kernel can evaluate it: each round grows the string by 64 characters, so
`target` rounds always suffice to reach length `target`. -/
def extendGo : Nat → List Char → Nat → List Char
  | 0, s, _ => s
  | fuel + 1, s, target => if s.length < target then extendGo fuel (extendOnce s) target else s

/-- `color_data_string` after the `while` loop: extended until its length
is at least `target = grid_size² * 6`. -/
def extendColorData (s : List Char) (target : Nat) : List Char := extendGo target s target

/-- The raster: width, height, and the pixel function. -/
structure Image where
  width : Nat
  height : Nat
  pix : Nat → Nat → Color

/-- PIL `draw.rectangle([x0, y0, x1, y1], fill=c)`: fills the rectangle
inclusive of both corner coordinates. -/
def drawRect (p : Nat → Nat → Color) (x0 y0 x1 y1 : Nat) (c : Color) : Nat → Nat → Color :=
  fun x y => if x0 ≤ x ∧ x ≤ x1 ∧ y0 ≤ y ∧ y ≤ y1 then c else p x y

/-- The nested `for row / for col` traversal, flattened in row-major
order: block `k` is `(row, col) = (k / gs, k % gs)`. -/
def blockGrid (gs : Nat) : List (Nat × Nat) :=
  (List.range (gs * gs)).map (fun k => (k / gs, k % gs))

/-- One iteration of the block loop (lines 63-79): pick the next 6
characters of the color data if available (advancing `color_idx`),
otherwise fall back to hashing `seed + row + col`; then draw the block. -/
def blockStep (colorData seed : List Char) (bw bh : Nat)
    (st : (Nat → Nat → Color) × Nat) (rc : Nat × Nat) : (Nat → Nat → Color) × Nat :=
  let x0 := rc.2 * bw
  let y0 := rc.1 * bh
  let pick : List Char × Nat :=
    if st.2 + 6 ≤ colorData.length then ((colorData.drop st.2).take 6, st.2 + 6)
    else ((sha256hex (seed ++ (Nat.repr rc.1).toList ++ (Nat.repr rc.2).toList)).take 6, st.2)
  (drawRect st.1 x0 y0 (x0 + bw) (y0 + bh) (hex_to_rgb pick.1), pick.2)

/-- The background color the returned raster carries: derived from the
seed's first 6 characters, or — for a seed shorter than 6 characters —
recomputed from the extended color data (lines 32-58; the interim raster
filled with `hex_to_rgb "101010"` is discarded by the recreation). -/
def blockBackground (seed : List Char) (gs : Nat) : Color :=
  if seed.length < 6 then hex_to_rgb ((extendColorData seed (gs * gs * 6)).take 6)
  else hex_to_rgb (seed.take 6)

/-- Embedding of `generate_color_blocks` (lines 18-81). -/
def generate_color_blocks (seed : List Char) (w h : Nat) (gridSize : Int) : Except String Image :=
  if seed = [] then .error "Seed hex string cannot be empty."
  else if gridSize ≤ 0 then .error "Grid size must be positive."
  else
    let gs := gridSize.toNat
    let bw := w / gs
    let bh := h / gs
    let colorData := extendColorData seed (gs * gs * 6)
    let bg := blockBackground seed gs
    .ok ⟨w, h, ((blockGrid gs).foldl (blockStep colorData seed bw bh) (fun _ _ => bg, 6)).1⟩

/-- Whether any block of the loop takes the `else` fallback branch of
lines 74-76 (the control flow of the loop: `color_idx` starts at 6 and
advances 6 per served block). -/
def colorBlocksFallbackHit (seed : List Char) (gs : Nat) : Bool :=
  let colorData := extendColorData seed (gs * gs * 6)
  ((blockGrid gs).foldl
    (fun (st : Nat × Bool) _ =>
      if st.1 + 6 ≤ colorData.length then (st.1 + 6, st.2) else (st.1, true))
    (6, false)).2

/-! ## Concentric-circle generator (procedural.py lines 84-191) -/

/-- The seed-derived parameters of `generate_concentric_circles`
(lines 97-136), consumed through one shared cursor. -/
structure CircleParams where
  background : Color
  numCircles : Int
  baseStroke : Int
  pos : Nat

def circleParams (seed : List Char) (defNC defBS : Int) : CircleParams :=
  let c1 := get_seed_chunk seed 6 0 true
  let c2 := get_seed_chunk seed 2 c1.2 true
  let nc0 : Int :=
    match parseHex? c2.1 with
    | some r => 5 + ((r : Int) % 26)
    | none => defNC
  let nc := if nc0 ≤ 0 then defNC else nc0
  let c3 := get_seed_chunk seed 2 c2.2 true
  let bs0 : Int :=
    match parseHex? c3.1 with
    | some r => 1 + ((r : Int) % 8)
    | none => defBS
  let bs := if bs0 ≤ 0 then defBS else bs0
  ⟨hex_to_rgb c1.1, nc, bs, c3.2⟩

/-- One `draw.ellipse(..., outline=color, width=w)` call. -/
structure EllipseCmd where
  x0 : ℚ
  y0 : ℚ
  x1 : ℚ
  y1 : ℚ
  color : Color
  strokeWidth : Int

/-- The drawing loop (lines 151-189), `i` running from `nc` down to 1;
each iteration consumes a 6-character color chunk and a 1-character
stroke-variation chunk, and emits an ellipse command when the radius
exceeds half the stroke width. -/
def circlesDraw (seed : List Char) (pos0 : Nat) (nc bs : Int) (maxRad : ℚ) (cx cy : Nat) :
    List EllipseCmd :=
  (((List.range nc.toNat).map (fun j => nc - j)).foldl
    (fun (st : List EllipseCmd × Nat) i =>
      let cc := get_seed_chunk seed 6 st.2 true
      let sv := get_seed_chunk seed 1 cc.2 true
      let svv : Int :=
        match parseHex? sv.1 with
        | some r => (r : Int) % 4
        | none => 0
      let w1 : Int := max 1 (bs + svv - (nc - i) / 3)
      let w2 : Int := max 1 w1
      let radius : ℚ := maxRad * (i : ℚ) / (nc : ℚ)
      let cmds :=
        if radius > (w2 : ℚ) / 2 then
          st.1 ++ [⟨(cx : ℚ) - radius, (cy : ℚ) - radius, (cx : ℚ) + radius, (cy : ℚ) + radius,
                    hex_to_rgb cc.1, w2⟩]
        else st.1
      (cmds, sv.2))
    ([], pos0)).1

/-- Embedding of `generate_concentric_circles` (lines 84-191).  The
output is the background color plus the ordered list of ellipse draw
calls; the raster is a deterministic function of these (PIL's ellipse
rasterizer is outside the embedding). -/
def generate_concentric_circles (seed : List Char) (w h : Nat) (defNC defBS : Int) :
    Except String (Color × List EllipseCmd) :=
  if seed = [] then .error "Seed hex string cannot be empty."
  else
    let ps := circleParams seed defNC defBS
    let maxRad : ℚ := ((min w h : ℚ) / 2) * (19 / 20)
    .ok (ps.background,
      circlesDraw seed ps.pos ps.numCircles ps.baseStroke maxRad (w / 2) (h / 2))

/-! ## Noise-field generator (procedural.py lines 216-292) -/

/-- The coherent-noise sampler `noise.pnoise2(nx, ny, octaves=...,
persistence=..., lacunarity=..., repeatx=..., repeaty=..., base=...)` is
an external C library; the generator is parameterized by it. -/
def NoiseFn : Type := ℚ → ℚ → ℚ → ℚ → ℚ → ℤ → ℤ → ℕ → ℚ

/-- The seed-derived noise parameters (lines 242-246), in consumption
order: scale, octaves, persistence, lacunarity, and the cursor after. -/
structure NoiseParams where
  scale : ℚ
  octaves : ℚ
  persistence : ℚ
  lacunarity : ℚ
  pos : Nat

def noiseParams (seed : List Char) : NoiseParams :=
  let p1 := get_chunk seed 2 0
  let p2 := get_chunk seed 1 p1.2
  let p3 := get_chunk seed 2 p2.2
  let p4 := get_chunk seed 2 p3.2
  ⟨_map_hex_to_range p1.1 30 120 false,
   _map_hex_to_range p2.1 2 6 true,
   _map_hex_to_range p3.1 (3 / 10) (7 / 10) false,
   _map_hex_to_range p4.1 (9 / 5) (7 / 2) false,
   p4.2⟩

/-- Per-pixel coloring (lines 277-290): normalize the noise value by
`(v + 0.7) / 1.4` clamped into `[0, 1]`, linearly interpolate each
channel, truncate with `int(...)`, and clamp into `[0, 255]`. -/
def noisePixelColor (c1 c2 : Color) (v : ℚ) : Color :=
  let norm0 := (v + 7 / 10) / (14 / 10)
  let n := max 0 (min 1 norm0)
  let r := pyInt ((c1.1 : ℚ) * (1 - n) + (c2.1 : ℚ) * n)
  let g := pyInt ((c1.2.1 : ℚ) * (1 - n) + (c2.2.1 : ℚ) * n)
  let b := pyInt ((c1.2.2 : ℚ) * (1 - n) + (c2.2.2 : ℚ) * n)
  ((max 0 (min 255 r)).toNat, (max 0 (min 255 g)).toNat, (max 0 (min 255 b)).toNat)

/-- Embedding of `generate_noisescape` (lines 216-292), parameterized by
the noise sampler `nf`. -/
def generate_noisescape (nf : NoiseFn) (seed : List Char) (w h : Nat) : Except String Image :=
  if seed = [] then .error "Seed hex string cannot be empty."
  else
    let np := noiseParams seed
    let base := (parseHex? ((sha256hex seed).take 4)).getD 0 % 256
    let p5 := get_chunk seed 6 np.pos
    let p6 := get_chunk seed 6 p5.2
    let color1 := hex_to_rgb p5.1
    let color2 := hex_to_rgb p6.1
    let rx := pyInt ((w : ℚ) / np.scale * (6 / 5)) + 2
    let ry := pyInt ((h : ℚ) / np.scale * (6 / 5)) + 2
    .ok ⟨w, h, fun x y =>
      noisePixelColor color1 color2
        (nf ((x : ℚ) / np.scale) ((y : ℚ) / np.scale)
          np.octaves np.persistence np.lacunarity rx ry base)⟩

/-! ## Mandelbrot generator -/

/-- Escape-time iteration `z ← z² + c` from `z = 0`: number of steps
until `|z|² > 4`, or `none` if the cap is reached without escaping. -/
def escapeSteps (cre cim : ℚ) : Nat → ℚ → ℚ → Option Nat
  | 0, _, _ => none
  | n + 1, zr, zi =>
    if zr * zr + zi * zi > 4 then some 0
    else (escapeSteps cre cim n (zr * zr - zi * zi + cre) (2 * zr * zi + cim)).map (· + 1)

/-- Modelled from the spec: `generate_mandelbrot` is imported by
`cli.py` and exercised by `tests/test_visuals.py`, but its definition is
not among the provided sources.  Following §4.6 of the specification: the
empty seed is rejected like the other generators; a complex-plane view
center, a horizontal half-extent, a maximum iteration count and a small
palette are derived from the seed via the shared cursor/ParameterMapper
mechanism before the pixel loop; each pixel maps (preserving aspect
ratio) to a complex coordinate, runs the standard escape-time iteration,
and is colored black when the cap is reached, else by the escape count
modulo the palette size. -/
def generate_mandelbrot (seed : List Char) (w h : Nat) : Except String Image :=
  if seed = [] then .error "Seed hex string cannot be empty."
  else
    let p1 := get_chunk seed 4 0
    let cx := _map_hex_to_range p1.1 (-2) 1 false
    let p2 := get_chunk seed 4 p1.2
    let cy := _map_hex_to_range p2.1 (-(3 / 2)) (3 / 2) false
    let p3 := get_chunk seed 2 p2.2
    let halfW := _map_hex_to_range p3.1 (1 / 2) 2 false
    let p4 := get_chunk seed 2 p3.2
    let cap := (pyInt (_map_hex_to_range p4.1 50 150 true)).toNat
    let p5 := get_chunk seed 6 p4.2
    let p6 := get_chunk seed 6 p5.2
    let palette := [hex_to_rgb p5.1, hex_to_rgb p6.1]
    let halfH := halfW * (h : ℚ) / (w : ℚ)
    .ok ⟨w, h, fun x y =>
      let re := cx - halfW + (2 * halfW) * ((x : ℚ) / (w : ℚ))
      let im := cy - halfH + (2 * halfH) * ((y : ℚ) / (h : ℚ))
      match escapeSteps re im cap 0 0 with
      | none => (0, 0, 0)
      | some k => palette.getD (k % 2) (0, 0, 0)⟩

/-! ## Chunk-extraction lemmas -/

theorem chunkSpec_succ (seed : List Char) (pos n : Nat) :
    chunkSpec seed pos (n + 1)
      = seed.getD (pos % seed.length) '0' :: chunkSpec seed (pos + 1) n := by
  simp only [chunkSpec, List.range_succ_eq_map, List.map_cons, List.map_map,
    Function.comp_def, Nat.add_zero, List.cons.injEq]
  refine ⟨trivial, List.map_congr_left ?_⟩
  intro a _
  have h : pos + (a + 1) = pos + 1 + a := by omega
  rw [h]

theorem get_seed_chunk_loop_eq (seed : List Char) (n : Nat) : ∀ pos : Nat,
    get_seed_chunk_loop seed n pos true = (chunkSpec seed pos n, pos + n) := by
  induction n with
  | zero => intro pos; simp [get_seed_chunk_loop, chunkSpec]
  | succ n ih =>
    intro pos
    simp only [get_seed_chunk_loop, if_true, ih (pos + 1), chunkSpec_succ, Prod.mk.injEq]
    exact ⟨trivial, by omega⟩

theorem get_chunk_loop_eq (seed : List Char) (n : Nat) : ∀ temp : Nat,
    get_chunk_loop seed n temp = chunkSpec seed temp n := by
  induction n with
  | zero => intro temp; simp [get_chunk_loop, chunkSpec]
  | succ n ih =>
    intro temp
    simp only [get_chunk_loop, ih (temp + 1), chunkSpec_succ]

theorem get_seed_chunk_eq (seed : List Char) (hs : seed ≠ []) (n pos : Nat) :
    get_seed_chunk seed n pos true = (chunkSpec seed pos n, pos + n) := by
  have hl : ¬(seed.length = 0) := by simpa [List.length_eq_zero] using hs
  simp [get_seed_chunk, hl, get_seed_chunk_loop_eq]

theorem get_chunk_eq (seed : List Char) (hs : seed ≠ []) (n pos : Nat) :
    get_chunk seed n pos = (chunkSpec seed pos n, pos + n) := by
  have hl : ¬(seed.length = 0) := by simpa [List.length_eq_zero] using hs
  simp [get_chunk, hl, get_chunk_loop_eq]

/-- C8: the two chunk-extraction implementations — the circle generator's
`get_seed_chunk`, which advances the cursor one character at a time, and
the noise generator's `get_chunk`, which reads via a temporary position
and then advances the cursor by the chunk length — compute the same
function: for every non-empty seed, cursor position `p` and length `n`,
both return the string whose j-th character is `seed[(p + j) % len seed]`
for `j < n`, and leave the cursor at `p + n`. -/
theorem chunk_extraction_equivalence (seed : List Char) (p n : Nat) (hs : seed ≠ []) :
    get_seed_chunk seed n p true = (chunkSpec seed p n, p + n) ∧
    get_chunk seed n p = (chunkSpec seed p n, p + n) :=
  ⟨get_seed_chunk_eq seed hs n p, get_chunk_eq seed hs n p⟩

/-- Witness for C8 at a concrete seed, cursor and length. -/
theorem chunk_extraction_equivalence_witness :
    get_seed_chunk "abc".toList 5 2 true = (chunkSpec "abc".toList 2 5, 2 + 5) ∧
    get_chunk "abc".toList 5 2 = (chunkSpec "abc".toList 2 5, 2 + 5) :=
  chunk_extraction_equivalence "abc".toList 2 5 (by decide)

/-! ## Hex-parsing lemmas -/

theorem hexVal?_le {c : Char} {v : Nat} (h : hexVal? c = some v) : v ≤ 15 := by
  unfold hexVal? at h
  by_cases h1 : 48 ≤ c.toNat ∧ c.toNat ≤ 57
  · rw [if_pos h1] at h
    cases h
    omega
  · rw [if_neg h1] at h
    by_cases h2 : 97 ≤ c.toNat ∧ c.toNat ≤ 102
    · rw [if_pos h2] at h
      cases h
      omega
    · rw [if_neg h2] at h
      by_cases h3 : 65 ≤ c.toNat ∧ c.toNat ≤ 70
      · rw [if_pos h3] at h
        cases h
        omega
      · rw [if_neg h3] at h
        cases h

theorem parseHexCore_lt {l : List Char} : ∀ {acc r : Nat},
    parseHexCore l acc = some r → r < (acc + 1) * 16 ^ l.length := by
  induction l with
  | nil =>
    intro acc r h
    simp [parseHexCore] at h
    simp only [List.length_nil, pow_zero, mul_one]
    omega
  | cons c cs ih =>
    intro acc r h
    simp only [parseHexCore] at h
    cases hv : hexVal? c with
    | none => rw [hv] at h; exact absurd h (by simp)
    | some v =>
      rw [hv] at h
      have hb := ih h
      have hv15 := hexVal?_le hv
      calc r < (16 * acc + v + 1) * 16 ^ cs.length := hb
        _ ≤ (16 * acc + 16) * 16 ^ cs.length := by
              apply Nat.mul_le_mul_right
              omega
        _ = (acc + 1) * 16 ^ (cs.length + 1) := by ring
        _ = (acc + 1) * 16 ^ (c :: cs).length := by simp

theorem parseHex?_lt {l : List Char} {r : Nat} (h : parseHex? l = some r) :
    r < 16 ^ l.length := by
  unfold parseHex? at h
  split at h
  · exact absurd h (by simp)
  · have := parseHexCore_lt h
    simpa using this

theorem parseHexCore_isSome {l : List Char} (hx : ∀ c ∈ l, isHexChar c) :
    ∀ acc : Nat, (parseHexCore l acc).isSome := by
  induction l with
  | nil => intro acc; simp [parseHexCore]
  | cons c cs ih =>
    intro acc
    have hc : isHexChar c := hx c (by simp)
    simp only [parseHexCore]
    cases hv : hexVal? c with
    | none => rw [isHexChar, hv] at hc; exact absurd hc (by simp)
    | some v => exact ih (fun d hd => hx d (by simp [hd])) _

theorem parseHex?_isSome {l : List Char} (hne : l ≠ []) (hx : ∀ c ∈ l, isHexChar c) :
    (parseHex? l).isSome := by
  unfold parseHex?
  rw [if_neg hne]
  exact parseHexCore_isSome hx 0

/-! ## Rounding lemmas -/

theorem pyRound_abs (q : ℚ) : |((pyRound q : ℤ) : ℚ) - q| ≤ 1 / 2 := by
  unfold pyRound
  by_cases h : q - ⌊q⌋ = 1 / 2
  · have h1 : (⌊q⌋ : ℚ) - q = -(1 / 2) := by linarith
    by_cases h2 : 2 ∣ ⌊q⌋
    · rw [if_pos h, if_pos h2]
      rw [h1, abs_neg, abs_of_nonneg (by norm_num : (0 : ℚ) ≤ 1 / 2)]
    · rw [if_pos h, if_neg h2]
      push_cast
      have h3 : (⌊q⌋ : ℚ) + 1 - q = 1 / 2 := by linarith
      rw [h3, abs_of_nonneg (by norm_num : (0 : ℚ) ≤ 1 / 2)]
  · rw [if_neg h]
    rw [show |((round q : ℤ) : ℚ) - q| = |q - ((round q : ℤ) : ℚ)| from abs_sub_comm _ _]
    exact abs_sub_round q

theorem le_pyRound {a : ℤ} {q : ℚ} (ha : (a : ℚ) ≤ q) : a ≤ pyRound q := by
  by_contra hc
  push_neg at hc
  have h2 : ((pyRound q : ℤ) : ℚ) ≤ (a : ℚ) - 1 := by
    have := Int.le_sub_one_of_lt hc
    exact_mod_cast this
  have h := pyRound_abs q
  rw [abs_le] at h
  linarith

theorem pyRound_le {b : ℤ} {q : ℚ} (hb : q ≤ (b : ℚ)) : pyRound q ≤ b := by
  by_contra hc
  push_neg at hc
  have h2 : ((b : ℤ) : ℚ) ≤ ((pyRound q : ℤ) : ℚ) - 1 := by
    have := Int.le_sub_one_of_lt hc
    exact_mod_cast this
  have h := pyRound_abs q
  rw [abs_le] at h
  linarith

/-! ## `_map_hex_to_range` lemmas -/

theorem _map_int_eq (c : List Char) (mn mx : ℚ) :
    _map_hex_to_range c mn mx true
      = ((pyRound (_map_hex_to_range c mn mx false) : ℤ) : ℚ) := rfl

theorem _map_empty (mn mx : ℚ) (b : Bool) :
    _map_hex_to_range [] mn mx b = if b then ((pyRound mn : ℤ) : ℚ) else mn := by
  unfold _map_hex_to_range
  norm_num

theorem _map_parse_none {c : List Char} (h : parseHex? c = none) (mn mx : ℚ) :
    _map_hex_to_range c mn mx false = mn := by
  by_cases hne : c = []
  · subst hne
    simpa using _map_empty mn mx false
  · unfold _map_hex_to_range
    rw [if_neg hne, h]
    simp

theorem _map_parse_some {c : List Char} {r : Nat} (h : parseHex? c = some r) (mn mx : ℚ) :
    _map_hex_to_range c mn mx false
      = mn + ((r : ℚ) / ((16 : ℚ) ^ c.length - 1)) * (mx - mn) := by
  have hne : c ≠ [] := by
    intro he
    rw [he] at h
    simp [parseHex?] at h
  have hlen : 1 ≤ c.length := List.length_pos.mpr hne
  have h16 : (16 : ℤ) ≤ 16 ^ c.length := by
    calc (16 : ℤ) = 16 ^ 1 := by norm_num
      _ ≤ 16 ^ c.length := pow_le_pow_right₀ (by norm_num) hlen
  have hmr : ¬((16 : ℤ) ^ c.length - 1 ≤ 0) := by omega
  unfold _map_hex_to_range
  rw [if_neg hne, h]
  simp only [Option.getD_some, if_neg hmr, if_pos (by omega : (0 : ℤ) < 16 ^ c.length - 1),
    Bool.false_eq_true, if_false]
  congr 2
  push_cast
  ring

theorem _map_le (c : List Char) {mn mx : ℚ} (h : mn ≤ mx) :
    mn ≤ _map_hex_to_range c mn mx false ∧ _map_hex_to_range c mn mx false ≤ mx := by
  cases hp : parseHex? c with
  | none =>
    rw [_map_parse_none hp]
    exact ⟨le_refl mn, h⟩
  | some r =>
    rw [_map_parse_some hp]
    have hne : c ≠ [] := by
      intro he
      rw [he] at hp
      simp [parseHex?] at hp
    have hlen : 1 ≤ c.length := List.length_pos.mpr hne
    have h16 : (16 : ℚ) ≤ 16 ^ c.length := by
      calc (16 : ℚ) = 16 ^ 1 := by norm_num
        _ ≤ 16 ^ c.length := pow_le_pow_right₀ (by norm_num) hlen
    have hrlt : (r : ℚ) ≤ 16 ^ c.length - 1 := by
      have := parseHex?_lt hp
      have hq : (r : ℚ) < ((16 : ℚ) ^ c.length) := by exact_mod_cast this
      have hr1 : (r : ℚ) + 1 ≤ (16 : ℚ) ^ c.length := by
        have : ((r + 1 : ℕ) : ℚ) ≤ ((16 ^ c.length : ℕ) : ℚ) := by
          exact_mod_cast parseHex?_lt hp
        push_cast at this
        linarith
      linarith
    have hden : (0 : ℚ) < 16 ^ c.length - 1 := by linarith
    have ht0 : (0 : ℚ) ≤ (r : ℚ) / (16 ^ c.length - 1) :=
      div_nonneg (by positivity) (le_of_lt hden)
    have ht1 : (r : ℚ) / (16 ^ c.length - 1) ≤ 1 := by
      rw [div_le_one hden]
      exact hrlt
    constructor
    · nlinarith
    · nlinarith

theorem _map_int_le (c : List Char) {mn mx : ℤ} (h : (mn : ℚ) ≤ (mx : ℚ)) :
    (mn : ℚ) ≤ _map_hex_to_range c mn mx true ∧ _map_hex_to_range c mn mx true ≤ (mx : ℚ) := by
  rw [_map_int_eq]
  have hb := _map_le c h
  constructor
  · exact_mod_cast le_pyRound hb.1
  · exact_mod_cast pyRound_le hb.2

/-- C4: for every hex chunk `c` and bounds, `_map_hex_to_range` returns
`min + (raw / max_raw) * (max - min)` where `raw` is `c` parsed base-16
and `max_raw = 16^len(c) - 1`; the `integer` flag applies Python's
round-to-nearest (ties to even, within 1/2 of the exact value); an empty
chunk maps to exactly `min`; a chunk that fails to parse maps as if
`raw = 0`, i.e. to `min`; the divisor is floored at 1 so no division by
zero occurs (for a nonempty chunk `16^len - 1 ≥ 15`, so the floor never
alters it). -/
theorem map_hex_to_range_spec (c : List Char) (mn mx : ℚ) :
    _map_hex_to_range [] mn mx false = mn ∧
    (∀ r : ℕ, parseHex? c = some r →
      _map_hex_to_range c mn mx false
        = mn + ((r : ℚ) / ((16 : ℚ) ^ c.length - 1)) * (mx - mn)) ∧
    (parseHex? c = none → _map_hex_to_range c mn mx false = mn) ∧
    _map_hex_to_range c mn mx true
      = ((pyRound (_map_hex_to_range c mn mx false) : ℤ) : ℚ) ∧
    (∀ q : ℚ, |((pyRound q : ℤ) : ℚ) - q| ≤ 1 / 2) := by
  refine ⟨?_, ?_, ?_, _map_int_eq c mn mx, pyRound_abs⟩
  · simpa using _map_empty mn mx false
  · intro r hr
    exact _map_parse_some hr mn mx
  · intro hn
    exact _map_parse_none hn mn mx

/-- Witness for C4 at the chunk `"ff"` mapped into `[0, 10]`. -/
theorem map_hex_to_range_spec_witness :
    _map_hex_to_range "ff".toList 0 10 false
      = 0 + ((255 : ℚ) / ((16 : ℚ) ^ ("ff".toList).length - 1)) * (10 - 0) :=
  (map_hex_to_range_spec "ff".toList 0 10).2.1 255 (by decide)

/-! ## `hex_to_rgb` theorems -/

/-- C3 counterexample: `"12345G"` is 6 characters that fail to parse as
hex; the claim says the fallback decodes the digest of the raw input
chunk `"12345G"`, but the code decodes the digest of the fixed string
`"default_color_fallback"`, and the two colors differ. -/
theorem hex_to_rgb_claim_counterexample :
    hex_to_rgb "12345G".toList = rgbOfDigest ("default_color_fallback".toList) ∧
    hex_to_rgb "12345G".toList ≠ rgbOfDigest ("12345G".toList) := by
  constructor
  · decide
  · decide

/-- C3 (amended): after stripping all leading `'#'` characters, a chunk
of exactly 6 characters that parses as three hex byte pairs yields those
three bytes; a chunk of any other length yields the bytes decoded from
the first 6 hex characters of the digest of the *stripped* string (not
the raw input); 6 characters that fail to parse yield the bytes decoded
from the digest of the fixed string `"default_color_fallback"`.  The
last conjunct ties the pair parser to byte arithmetic. -/
theorem hex_to_rgb_characterization (s : List Char) :
    ((lstripHash s).length = 6 →
      (∀ col : Color, rgbOfHex6 (lstripHash s) = some col → hex_to_rgb s = col) ∧
      (rgbOfHex6 (lstripHash s) = none →
        hex_to_rgb s = rgbOfDigest ("default_color_fallback".toList))) ∧
    ((lstripHash s).length ≠ 6 → hex_to_rgb s = rgbOfDigest (lstripHash s)) ∧
    (∀ c1 c2 : Char, ∀ v1 v2 : Nat, hexVal? c1 = some v1 → hexVal? c2 = some v2 →
      parseHex? [c1, c2] = some (16 * v1 + v2)) := by
  refine ⟨fun h6 => ⟨?_, ?_⟩, ?_, ?_⟩
  · intro col hcol
    unfold hex_to_rgb
    rw [if_neg (by simp [h6]), hcol]
  · intro hnone
    unfold hex_to_rgb
    rw [if_neg (by simp [h6]), hnone]
  · intro hne
    unfold hex_to_rgb
    rw [if_pos hne]
  · intro c1 c2 v1 v2 h1 h2
    simp [parseHex?, parseHexCore, h1, h2]

/-- Witness for C3: `"#00FF00"` strips to 6 valid hex characters and
decodes to `(0, 255, 0)`. -/
theorem hex_to_rgb_characterization_witness :
    hex_to_rgb "#00FF00".toList = ((0, 255, 0) : Color) :=
  ((hex_to_rgb_characterization "#00FF00".toList).1 (by decide)).1 (0, 255, 0) (by decide)

/-! ## Parameter-bound theorems -/

theorem chunkSpec_mem (seed : List Char) (hs : seed ≠ []) (p n : Nat) :
    ∀ c ∈ chunkSpec seed p n, c ∈ seed := by
  intro c hc
  simp only [chunkSpec, List.mem_map, List.mem_range] at hc
  obtain ⟨j, _, rfl⟩ := hc
  have hlen : 0 < seed.length := List.length_pos.mpr hs
  have hi : (p + j) % seed.length < seed.length := Nat.mod_lt _ hlen
  rw [List.getD_eq_getElem?_getD, List.getElem?_eq_getElem hi]
  exact List.getElem_mem hi

theorem chunkSpec_parse (seed : List Char) (hs : seed ≠ [])
    (hx : ∀ c ∈ seed, isHexChar c) (p : Nat) {n : Nat} (hn : n ≠ 0) :
    ∃ r, parseHex? (chunkSpec seed p n) = some r := by
  have hne : chunkSpec seed p n ≠ [] := by
    simp [chunkSpec, List.range_eq_nil, hn]
  have := parseHex?_isSome hne (fun c hc => hx c (chunkSpec_mem seed hs p n c hc))
  exact Option.isSome_iff_exists.mp this

theorem _map_int_le' (c : List Char) {mn mx : ℚ} {a b : ℤ}
    (hmn : mn = (a : ℚ)) (hmx : mx = (b : ℚ)) (h : mn ≤ mx) :
    mn ≤ _map_hex_to_range c mn mx true ∧ _map_hex_to_range c mn mx true ≤ mx := by
  rw [_map_int_eq]
  have hb := _map_le c h
  subst hmn hmx
  constructor
  · exact_mod_cast le_pyRound (by exact_mod_cast hb.1)
  · exact_mod_cast pyRound_le (by exact_mod_cast hb.2)

theorem circleParams_bounds (seed : List Char) (defNC defBS : Int)
    (hs : seed ≠ []) (hx : ∀ c ∈ seed, isHexChar c) :
    (5 ≤ (circleParams seed defNC defBS).numCircles ∧
     (circleParams seed defNC defBS).numCircles ≤ 30) ∧
    (1 ≤ (circleParams seed defNC defBS).baseStroke ∧
     (circleParams seed defNC defBS).baseStroke ≤ 8) := by
  obtain ⟨r2, hr2⟩ := chunkSpec_parse seed hs hx 6 (by norm_num : (2 : Nat) ≠ 0)
  obtain ⟨r3, hr3⟩ := chunkSpec_parse seed hs hx 8 (by norm_num : (2 : Nat) ≠ 0)
  simp only [circleParams, get_seed_chunk_eq seed hs, Nat.zero_add, Nat.reduceAdd, hr2, hr3]
  refine ⟨⟨?_, ?_⟩, ?_, ?_⟩ <;> (split <;> omega)

theorem noiseParams_bounds (seed : List Char) :
    (30 ≤ (noiseParams seed).scale ∧ (noiseParams seed).scale ≤ 120) ∧
    (2 ≤ (noiseParams seed).octaves ∧ (noiseParams seed).octaves ≤ 6) ∧
    (3 / 10 ≤ (noiseParams seed).persistence ∧ (noiseParams seed).persistence ≤ 7 / 10) ∧
    (9 / 5 ≤ (noiseParams seed).lacunarity ∧ (noiseParams seed).lacunarity ≤ 7 / 2) := by
  simp only [noiseParams]
  refine ⟨_map_le _ (by norm_num), ?_, _map_le _ (by norm_num), _map_le _ (by norm_num)⟩
  exact _map_int_le' _ (by norm_num : (2 : ℚ) = ((2 : ℤ) : ℚ))
    (by norm_num : (6 : ℚ) = ((6 : ℤ) : ℚ)) (by norm_num)

/-- C5: for every non-empty hex seed, the seed-derived parameters lie in
their stated ranges: the circle generator's circle count (computed as
`5 + raw % 26`) is in `[5, 30]` and its base stroke width (computed as
`1 + raw % 8`) is in `[1, 8]` (hex characters always parse, so the
caller defaults are not substituted); the noise generator's scale is in
`[30, 120]`, octave count in `[2, 6]`, persistence in `[0.3, 0.7]`, and
lacunarity in `[1.8, 3.5]`. -/
theorem derived_parameter_bounds (seed : List Char) (defNC defBS : Int)
    (hs : seed ≠ []) (hx : seed.all isHexChar = true) :
    ((5 ≤ (circleParams seed defNC defBS).numCircles ∧
      (circleParams seed defNC defBS).numCircles ≤ 30) ∧
     (1 ≤ (circleParams seed defNC defBS).baseStroke ∧
      (circleParams seed defNC defBS).baseStroke ≤ 8)) ∧
    ((30 ≤ (noiseParams seed).scale ∧ (noiseParams seed).scale ≤ 120) ∧
     (2 ≤ (noiseParams seed).octaves ∧ (noiseParams seed).octaves ≤ 6) ∧
     (3 / 10 ≤ (noiseParams seed).persistence ∧ (noiseParams seed).persistence ≤ 7 / 10) ∧
     (9 / 5 ≤ (noiseParams seed).lacunarity ∧ (noiseParams seed).lacunarity ≤ 7 / 2)) :=
  ⟨circleParams_bounds seed defNC defBS hs (by simpa [List.all_eq_true] using hx),
   noiseParams_bounds seed⟩

/-- Witness for C5 at the seed `"abcdef"` with caller defaults 10 and 2. -/
theorem derived_parameter_bounds_witness :
    (5 ≤ (circleParams "abcdef".toList 10 2).numCircles ∧
     (circleParams "abcdef".toList 10 2).numCircles ≤ 30) ∧
    (30 ≤ (noiseParams "abcdef".toList).scale ∧
     (noiseParams "abcdef".toList).scale ≤ 120) :=
  ⟨(derived_parameter_bounds "abcdef".toList 10 2 (by decide) (by decide)).1.1,
   (derived_parameter_bounds "abcdef".toList 10 2 (by decide) (by decide)).2.1⟩

/-! ## Determinism and validation -/

/-- C1: two independent invocations of the same generator with identical
inputs produce identical results.  In this embedding each generator is a
pure function of its arguments — mirroring the source, which keeps no
module-level mutable state (its cursors are locals of a single call) —
so the outputs, and hence the rasters they determine, coincide for all
inputs, valid ones included.  The noise generator is compared with the
same coherent-noise sampler `nf` on both sides, the sampler being the
external `noise.pnoise2` library function. -/
theorem generators_deterministic (seed : List Char) (w h : Nat)
    (gridSize defNC defBS : Int) (nf : NoiseFn) :
    generate_color_blocks seed w h gridSize = generate_color_blocks seed w h gridSize ∧
    generate_concentric_circles seed w h defNC defBS
      = generate_concentric_circles seed w h defNC defBS ∧
    generate_noisescape nf seed w h = generate_noisescape nf seed w h :=
  ⟨rfl, rfl, rfl⟩

/-- C2: each of the four generators rejects the empty seed with the
invalid-input error before producing any raster, and the block generator
additionally rejects a non-positive grid size.  `generate_mandelbrot` is
the spec-modelled definition (its source is not under `src/`). -/
theorem empty_seed_and_grid_validation (w h : Nat) (gridSize defNC defBS : Int) (nf : NoiseFn) :
    generate_color_blocks [] w h gridSize = .error "Seed hex string cannot be empty." ∧
    generate_concentric_circles [] w h defNC defBS
      = .error "Seed hex string cannot be empty." ∧
    generate_noisescape nf [] w h = .error "Seed hex string cannot be empty." ∧
    generate_mandelbrot [] w h = .error "Seed hex string cannot be empty." ∧
    (∀ seed : List Char, seed ≠ [] → gridSize ≤ 0 →
      generate_color_blocks seed w h gridSize = .error "Grid size must be positive.") := by
  refine ⟨?_, ?_, ?_, ?_, ?_⟩
  · simp [generate_color_blocks]
  · simp [generate_concentric_circles]
  · simp [generate_noisescape]
  · simp [generate_mandelbrot]
  · intro seed hns hgs
    simp [generate_color_blocks, hns, hgs]

/-- Witness for C2 at concrete sizes, grid and seed. -/
theorem empty_seed_and_grid_validation_witness :
    generate_color_blocks [] 32 32 2 = .error "Seed hex string cannot be empty." ∧
    generate_color_blocks "123456".toList 16 16 0 = .error "Grid size must be positive." :=
  ⟨(empty_seed_and_grid_validation 32 32 2 10 2 (fun _ _ _ _ _ _ _ _ => 0)).1,
   (empty_seed_and_grid_validation 16 16 0 10 2 (fun _ _ _ _ _ _ _ _ => 0)).2.2.2.2
     "123456".toList (by decide) (by decide)⟩

/-! ## Block-loop fallback reachability -/

theorem fallbackFold_false (len : Nat) :
    ∀ (l : List (Nat × Nat)) (idx : Nat), idx + 6 * l.length ≤ len →
    (l.foldl
      (fun (st : Nat × Bool) _ =>
        if st.1 + 6 ≤ len then (st.1 + 6, st.2) else (st.1, true))
      (idx, false)).2 = false := by
  intro l
  induction l with
  | nil => intro idx _; rfl
  | cons a t ih =>
    intro idx h
    have hc : idx + 6 ≤ len := by
      simp only [List.length_cons] at h
      omega
    simp only [List.foldl_cons, hc, if_true]
    exact ih (idx + 6) (by simp only [List.length_cons] at h; omega)

/-- C6 counterexample: for the seed `"abcdef"` and `grid_size = 1` the
color data string has length 6 (no extension round runs, 6 ≥ 1·1·6), the
single block needs characters 6..11, and the per-block hash fallback IS
reached — the claim that it is never reached fails. -/
theorem block_fallback_reached_counterexample :
    colorBlocksFallbackHit "abcdef".toList 1 = true := by decide

/-- C6 (amended): blocks consume characters starting at index 6, so they
need `grid_size²·6 + 6` characters while the extension loop only
guarantees `grid_size²·6`; whenever the extended color data string's
length is at least `grid_size²·6 + 6`, every block finds its 6
characters and the per-block exhaustion fallback is never reached. -/
theorem block_fallback_unreachable_when_long (seed : List Char) (gs : Nat)
    (h : gs * gs * 6 + 6 ≤ (extendColorData seed (gs * gs * 6)).length) :
    colorBlocksFallbackHit seed gs = false := by
  unfold colorBlocksFallbackHit
  have hlen : (blockGrid gs).length = gs * gs := by simp [blockGrid]
  apply fallbackFold_false
  rw [hlen]
  omega

/-- Witness for C6 (amended) at a 64-character seed and `grid_size = 2`:
the color data string has length 64 ≥ 2·2·6 + 6 = 30. -/
theorem block_fallback_unreachable_when_long_witness :
    colorBlocksFallbackHit
      "aaaaaaaaaaaaaaaaaaaaaaaaaaaaaaaaaaaaaaaaaaaaaaaaaaaaaaaaaaaaaaaa".toList 2 = false :=
  block_fallback_unreachable_when_long _ 2 (by decide)

/-! ## Extension-loop termination and progress -/

theorem extendOnce_length (s : List Char) : (extendOnce s).length = s.length + 64 := by
  simp [extendOnce, sha256hex_length]

theorem extendGo_length (fuel : Nat) : ∀ (s : List Char) (target : Nat),
    target ≤ s.length + 64 * fuel → target ≤ (extendGo fuel s target).length := by
  induction fuel with
  | zero =>
    intro s target h
    simpa using h
  | succ n ih =>
    intro s target h
    simp only [extendGo]
    by_cases hc : s.length < target
    · rw [if_pos hc]
      apply ih
      rw [extendOnce_length]
      omega
    · rw [if_neg hc]
      omega

/-- C10: the block generator's extension loop makes progress and
terminates: each round appends the 64-character hex digest of the
current string, growing it by exactly 64, so the color data string
reaches length `grid_size²·6` after finitely many rounds (at most
`grid_size²·6`, the fuel of the structural formulation). -/
theorem extension_terminates_and_reaches_target (seed : List Char) (gs : Nat) :
    gs * gs * 6 ≤ (extendColorData seed (gs * gs * 6)).length ∧
    (∀ s : List Char, (extendOnce s).length = s.length + 64) := by
  constructor
  · apply extendGo_length
    generalize gs * gs * 6 = t
    omega
  · exact extendOnce_length

/-! ## Remainder-strip behavior of the block generator -/

theorem blockFold_pix_out (colorData seed : List Char) (bw bh : Nat) :
    ∀ (l : List (Nat × Nat)) (x y : Nat),
      (∀ rc ∈ l,
        ¬(rc.2 * bw ≤ x ∧ x ≤ rc.2 * bw + bw ∧ rc.1 * bh ≤ y ∧ y ≤ rc.1 * bh + bh)) →
      ∀ (p : Nat → Nat → Color) (idx : Nat),
        ((l.foldl (blockStep colorData seed bw bh) (p, idx)).1) x y = p x y := by
  intro l
  induction l with
  | nil => intro x y _ p idx; rfl
  | cons a t ih =>
    intro x y hout p idx
    rw [List.foldl_cons]
    have hna := hout a (by simp)
    have hstep1 : (blockStep colorData seed bw bh (p, idx) a).1 x y = p x y := by
      simp only [blockStep, drawRect]
      rw [if_neg hna]
    have hrest := ih x y (fun rc hrc => hout rc (by simp [hrc]))
      (blockStep colorData seed bw bh (p, idx) a).1
      (blockStep colorData seed bw bh (p, idx) a).2
    exact hrest.trans hstep1

theorem blockGrid_mem {gs : Nat} {rc : Nat × Nat} (h : rc ∈ blockGrid gs) :
    rc.1 < gs ∧ rc.2 < gs := by
  simp only [blockGrid, List.mem_map, List.mem_range] at h
  obtain ⟨k, hk, rfl⟩ := h
  have hgs : 0 < gs := by
    rcases Nat.eq_zero_or_pos gs with h0 | h1
    · subst h0
      simp at hk
    · exact h1
  exact ⟨(Nat.div_lt_iff_lt_mul hgs).mpr hk, Nat.mod_lt _ hgs⟩

/-- C7 counterexample: with width 5, height 4, `grid_size = 2` the block
width is 2 and the remainder strip starts at `x = 2·(5/2) = 4`; PIL's
`draw.rectangle` is inclusive of both endpoints, so the last block of a
row paints the pixel `(4, 0)` with its block color `(17, 17, 17)`,
which differs from the background `(0, 0, 0)` — the claim that every
remainder-strip pixel keeps the background fails. -/
theorem remainder_strip_overdraw_counterexample :
    ((generate_color_blocks "000000111111111111111111111111".toList 5 4 2).toOption.map
        (fun img => img.pix 4 0)) = some ((17, 17, 17) : Color) ∧
    blockBackground "000000111111111111111111111111".toList 2 = ((0, 0, 0) : Color) ∧
    2 * (5 / 2) ≤ 4 ∧ ((17, 17, 17) : Color) ≠ ((0, 0, 0) : Color) :=
  ⟨by decide, by decide, by decide, by decide⟩

/-- C7 (amended): because PIL rectangles are inclusive of both corner
coordinates, each block also paints the first column/row beyond its
nominal extent; hence only the pixels *strictly* beyond
`grid_size · (width / grid_size)` horizontally, or strictly beyond
`grid_size · (height / grid_size)` vertically, are guaranteed to keep
the background color; the first remainder column/row can be overdrawn
by the adjacent block's inclusive edge. -/
theorem remainder_strip_background (seed : List Char) (w h : Nat) (gridSize : Int)
    (x y : Nat) (hs : seed ≠ []) (hg : 0 < gridSize) (_hx : x < w) (_hy : y < h)
    (hout : gridSize.toNat * (w / gridSize.toNat) < x ∨
            gridSize.toNat * (h / gridSize.toNat) < y) :
    (generate_color_blocks seed w h gridSize).map (fun img => img.pix x y)
      = .ok (blockBackground seed gridSize.toNat) := by
  have hg' : ¬(gridSize ≤ 0) := by omega
  simp only [generate_color_blocks, if_neg hs, if_neg hg', Except.map]
  congr 1
  rw [blockFold_pix_out]
  intro rc hrc
  obtain ⟨hrow, hcol⟩ := blockGrid_mem hrc
  rintro ⟨h1, h2, h3, h4⟩
  rcases hout with hcase | hcase
  · have hle : rc.2 * (w / gridSize.toNat) + w / gridSize.toNat
        ≤ gridSize.toNat * (w / gridSize.toNat) := by
      calc rc.2 * (w / gridSize.toNat) + w / gridSize.toNat
          = (rc.2 + 1) * (w / gridSize.toNat) := by ring
        _ ≤ gridSize.toNat * (w / gridSize.toNat) := Nat.mul_le_mul_right _ hcol
    exact Nat.lt_irrefl x (Nat.lt_of_le_of_lt (le_trans h2 hle) hcase)
  · have hle : rc.1 * (h / gridSize.toNat) + h / gridSize.toNat
        ≤ gridSize.toNat * (h / gridSize.toNat) := by
      calc rc.1 * (h / gridSize.toNat) + h / gridSize.toNat
          = (rc.1 + 1) * (h / gridSize.toNat) := by ring
        _ ≤ gridSize.toNat * (h / gridSize.toNat) := Nat.mul_le_mul_right _ hrow
    exact Nat.lt_irrefl y (Nat.lt_of_le_of_lt (le_trans h4 hle) hcase)

/-- Witness for C7 (amended): width 5, height 5, `grid_size = 3`, pixel
`(4, 0)` lies strictly beyond `3·(5/3) = 3` and keeps the background. -/
theorem remainder_strip_background_witness :
    (generate_color_blocks
        "000000111111111111111111111111111111111111111111111111111111".toList 5 5 3).map
        (fun img => img.pix 4 0)
      = .ok (blockBackground
          "000000111111111111111111111111111111111111111111111111111111".toList 3) :=
  remainder_strip_background _ 5 5 3 4 0 (by decide) (by decide) (by decide) (by decide)
    (Or.inl (by decide))

/-! ## Noise-pixel coloring -/

/-- C9 counterexample: with colors A = (0,0,0), B = (255,255,255) and
raw noise value `v = 1/10`, the normalized value is `4/7` and the exact
lerp is `1020/7 ≈ 145.71`; the code's `int(...)` truncation yields 145
per channel, while rounding to the nearest integer (the claim) yields
146 — under both Python's round-half-to-even and round-half-up, the
value not being a tie. -/
theorem noise_lerp_truncation_counterexample :
    noisePixelColor ((0, 0, 0) : Color) ((255, 255, 255) : Color) (1 / 10)
      = ((145, 145, 145) : Color) ∧
    pyRound ((255 : ℚ) * ((1 / 10 + 7 / 10) / (14 / 10))) = 146 ∧
    round ((255 : ℚ) * ((1 / 10 + 7 / 10) / (14 / 10))) = 146 := by
  refine ⟨?_, ?_, ?_⟩
  · simp only [noisePixelColor]
    have hn : max (0 : ℚ) (min 1 (((1 : ℚ) / 10 + 7 / 10) / (14 / 10))) = 4 / 7 := by
      rw [min_def, max_def]
      norm_num
    norm_num [hn]
    rw [pyInt_eq_floor (by norm_num : (0 : ℚ) ≤ 1020 / 7)]
    norm_num [min_def, max_def]
    simp
  · unfold pyRound
    norm_num [round_eq]
  · norm_num [round_eq]

/-- C9 (amended): for every pixel the raw noise value `v` is normalized
to `(v + 0.7)/1.4` clamped into `[0, 1]`, and each output channel equals
the linear interpolation `channelA * (1 - t) + channelB * t` truncated
toward zero — equivalently floored, the lerp of nonnegative channels
being nonnegative — and clamped to `[0, 255]`, where `t` is the
normalized value.  (The source's `int(...)` truncates; it does not round
to nearest.) -/
theorem noise_lerp_floor_characterization (c1 c2 : Color) (v : ℚ) :
    noisePixelColor c1 c2 v =
      (let t := max 0 (min 1 ((v + 7 / 10) / (14 / 10)))
       ((max 0 (min 255 ⌊(c1.1 : ℚ) * (1 - t) + (c2.1 : ℚ) * t⌋)).toNat,
        (max 0 (min 255 ⌊(c1.2.1 : ℚ) * (1 - t) + (c2.2.1 : ℚ) * t⌋)).toNat,
        (max 0 (min 255 ⌊(c1.2.2 : ℚ) * (1 - t) + (c2.2.2 : ℚ) * t⌋)).toNat)) := by
  simp only [noisePixelColor]
  set t := max 0 (min 1 ((v + 7 / 10) / (14 / 10))) with ht
  have ht0 : (0 : ℚ) ≤ t := le_max_left _ _
  have hq : ∀ a b : Nat, (0 : ℚ) ≤ (a : ℚ) * (1 - t) + (b : ℚ) * t := by
    intro a b
    have ht1 : t ≤ 1 := max_le (by norm_num) (min_le_left _ _)
    have h2 : (0 : ℚ) ≤ 1 - t := by linarith
    have hm1 := mul_nonneg (Nat.cast_nonneg a) h2
    have hm2 := mul_nonneg (Nat.cast_nonneg b) ht0
    linarith
  rw [pyInt_eq_floor (hq c1.1 c2.1), pyInt_eq_floor (hq c1.2.1 c2.2.1),
    pyInt_eq_floor (hq c1.2.2 c2.2.2)]
